import Mathlib

/-!
Verification of the reactive state container specified for the
`React-state` repository: a StateCell / DependencyTracker /
EffectScheduler / ActionReducer core abstracted from the repository's
three example components (Counter, UserFetcher, TodoUseReducer) and the
conceptual hook implementations in `state.md`.

Definitions are shallow embeddings of the repository's source where the
source contains the logic (the example components, the conceptual
`useEffect` implementation in `state.md`), and are modelled from the
spec where the repository contains only usage examples of the engine
(the scheduler state machine, the batch/updater semantics of `mutate`,
the error taxonomy) — those carry a `Modelled from the spec:` note.
-/

namespace ReactState

/-! ## Mutations and batches (spec §3 PendingMutation, §4.1 mutate) -/

/-- Modelled from the spec: a mutation call's argument — `mutate` accepts
either a literal replacement value or an updater function
`(previous) -> next` (spec §4.1); the engine itself is absent from the
source, which only shows calls like `setCount(count + 1)` and
`setCount(c => c + 1)`. -/
inductive Mutation (α : Type) where
  | lit (v : α)
  | upd (f : α → α)

/-- Modelled from the spec: applying one pending mutation to the most
recently queued value of its cell — a literal replaces, an updater
observes the most recently queued value (spec §4.1). -/
def applyMutation {α : Type} (cur : α) : Mutation α → α
  | .lit v => v
  | .upd f => f cur

/-- Modelled from the spec: flushing one cell's pending mutations in the
order recorded (spec §4.3, "apply all PendingMutations to their
StateCells in the order recorded"). -/
def applyBatch {α : Type} (cur : α) (ms : List (Mutation α)) : α :=
  ms.foldl applyMutation cur

/-! ## The Counter example (src/state.md `Counter`/`CounterFixed`,
Counter.jsx `incrementThree`) -/

/-- The batch issued by `Counter.handleClick` in `state.md`: three
`setCount(count + 1)` calls, each a literal computed from the `count`
variable captured before any of the three calls. -/
def handleClickLiteral (count : Nat) : List (Mutation Nat) :=
  [.lit (count + 1), .lit (count + 1), .lit (count + 1)]

/-- The batch issued by `incrementThree` in `Counter.jsx` (and
`CounterFixed.handleClick` in `state.md`): three functional updates
`setCount(c => c + 1)`. -/
def incrementThree : List (Mutation Nat) :=
  [.upd (· + 1), .upd (· + 1), .upd (· + 1)]

/-! ## The todo reducer (src `TodoUseReducer.jsx`) -/

/-- A todo item as built by the reducer in `TodoUseReducer.jsx`:
`{ id: Date.now(), text: action.payload }`. -/
structure Todo where
  id : Nat
  text : String
deriving DecidableEq, Repr

/-- The actions handled by the reducer in `TodoUseReducer.jsx`:
`{ type: 'add', payload: text }`, `{ type: 'remove', payload: t.id }`,
and any other action type (the `default` branch). -/
inductive TodoAction where
  | add (payload : String)
  | remove (payload : Nat)
  | other
deriving DecidableEq, Repr

/-- The `reducer` function of `TodoUseReducer.jsx`. The call to
`Date.now()` in the `add` branch reads the ambient clock; it is embedded
as the explicit argument `now`, so that one evaluation of the JavaScript
`reducer(state, action)` at clock reading `t` is `reducer t state action`
here.
- `add`: `[...state, { id: Date.now(), text: action.payload }]`
- `remove`: `state.filter(t => t.id !== action.payload)`
- default: `state`. -/
def reducer (now : Nat) (state : List Todo) (action : TodoAction) : List Todo :=
  match action with
  | .add payload => state ++ [⟨now, payload⟩]
  | .remove payload => state.filter (fun t => t.id ≠ payload)
  | .other => state

/-- Whether an action takes the `add` branch of the reducer (the only
branch that reads the clock). -/
def TodoAction.isAdd : TodoAction → Bool
  | .add _ => true
  | _ => false

/-! ## The UserFetcher button handlers (src `UserFetch.jsx`) -/

/-- The two userId-mutating buttons of `UserFetcher`. -/
inductive FetchButton where
  | prev
  | next
deriving DecidableEq, Repr

/-- One button press of `UserFetcher`, as a functional update on the
`userId` cell:
- Prev: `setUserId(id => Math.max(1, id - 1))`
- Next: `setUserId(id => id + 1)`. -/
def pressUser (id : Int) : FetchButton → Int
  | .prev => max 1 (id - 1)
  | .next => id + 1

/-- The `userId` value after a finite sequence of button presses starting
from `useState(1)`; each press is its own external task, so its
functional update is applied to the flushed value of the previous one. -/
def userIdAfter (presses : List FetchButton) : Int :=
  presses.foldl pressUser 1

/-! ## EffectScheduler state machine (spec §4.3) -/

/-- Modelled from the spec: the scheduler's states `Idle`, `BatchOpen`,
`Flushing` (spec §4.3); the source only illustrates batching through the
`Form` example of `state.md`. -/
inductive SchedState where
  | Idle
  | BatchOpen
  | Flushing
deriving DecidableEq, Repr

/-- Modelled from the spec: the scheduler of one instance — its cells
(addressed by slot index), the pending-mutation queue of the open batch,
the machine state, and counters of the re-activations and
effect-evaluation passes performed so far. -/
structure Sched (α : Type) where
  cells : Nat → α
  pending : List (Nat × Mutation α)
  state : SchedState
  activations : Nat
  effectPasses : Nat

/-- Modelled from the spec: one `mutate` call (spec §4.3) — while `Idle`
it opens a batch and schedules a flush (`Idle -> BatchOpen`); while
`BatchOpen` it appends to the same batch without opening a new one;
while `Flushing` it appends to a queue that will become a new batch. -/
def mutateCall {α : Type} (s : Sched α) (c : Nat) (m : Mutation α) : Sched α :=
  match s.state with
  | .Idle => { s with pending := s.pending ++ [(c, m)], state := .BatchOpen }
  | .BatchOpen => { s with pending := s.pending ++ [(c, m)] }
  | .Flushing => { s with pending := s.pending ++ [(c, m)] }

/-- Modelled from the spec: applying the recorded pending mutations to
the cell store in order, each updater observing the most recently
queued value of its cell (spec §4.1, §4.3). -/
def applyPending {α : Type} (cells : Nat → α) :
    List (Nat × Mutation α) → Nat → α
  | [], i => cells i
  | (c, m) :: rest, i =>
      applyPending (fun j => if j = c then applyMutation (cells c) m else cells j) rest i

/-- Modelled from the spec: the flush (`BatchOpen -> Flushing -> Idle`,
spec §4.3): all pending mutations are applied, then exactly one
re-activation and one effect-evaluation pass run. -/
def flush {α : Type} (s : Sched α) : Sched α :=
  { cells := applyPending s.cells s.pending
    pending := []
    state := .Idle
    activations := s.activations + 1
    effectPasses := s.effectPasses + 1 }

/-- The synchronous part of a task: folding its `mutate` calls over the
scheduler. -/
def mutateCalls {α : Type} (s : Sched α) (calls : List (Nat × Mutation α)) :
    Sched α :=
  calls.foldl (fun acc cm => mutateCall acc cm.1 cm.2) s

/-- Modelled from the spec: one synchronous task issuing a list of
`mutate` calls; the microtask-equivalent flush runs after the task's
synchronous calls, if a batch was opened (spec §4.3). -/
def runTask {α : Type} (s : Sched α) (calls : List (Nat × Mutation α)) : Sched α :=
  match (mutateCalls s calls).state with
  | .BatchOpen => flush (mutateCalls s calls)
  | _ => mutateCalls s calls

/-! ## DependencyTracker (src/state.md, conceptual `useEffect`
implementation, and spec §4.2) -/

/-- `areArraysEqual` as used by the conceptual `useEffect` of `state.md`:
positional comparison of the two dependency arrays under the configured
equality rule (`Object.is` per `state.md`, "the equality rule above" per
spec §4.2). -/
def areArraysEqual {α : Type} (eq : α → α → Bool) (a b : List α) : Bool :=
  a.length == b.length && (List.zip a b).all fun p => eq p.1 p.2

/-- The dependency check of `state.md`'s conceptual `useEffect`:
`depsChanged = !previousDependencies || !areArraysEqual(dependencies,
previousDependencies)`. `none` stands for an absent (`undefined`)
dependency array: a registration with no watch-list, or a registration
that has not recorded one yet. -/
def depsChanged {α : Type} (eq : α → α → Bool)
    (deps prevDeps : Option (List α)) : Bool :=
  match prevDeps with
  | none => true
  | some p =>
      match deps with
      | none => true
      | some ds => !(areArraysEqual eq ds p)

/-- The per-registration tracker state across activations: the
dependency values recorded at the previous activation (`none` before the
first activation, and for registrations with no watch-list), and the
running count of body invocations. -/
def effectStep {α : Type} (eq : α → α → Bool)
    (st : Option (List α) × Nat) (newDeps : Option (List α)) :
    Option (List α) × Nat :=
  (newDeps, if depsChanged eq newDeps st.1 then st.2 + 1 else st.2)

/-- How many times one effect registration's body has run after a
sequence of activations, each activation supplying that registration's
watch values (`state.md` stores `deps` and re-checks on every render). -/
def runCountAfter {α : Type} (eq : α → α → Bool)
    (depsSeq : List (Option (List α))) : Nat :=
  (depsSeq.foldl (effectStep eq) (none, 0)).2

/-- The watch values supplied by an effect registered with watch-list
`[a]` in an instance whose cells hold `(a, b)` at this activation (as in
`UserFetcher`, whose effect watches `[userId]` while the `user`,
`loading` and `error` cells also change). -/
def watchFirst {α β : Type} (cells : α × β) : Option (List α) :=
  some [cells.1]

/-! ## Effect-processing pass with cleanups (spec §4.2, and the
cleanup protocol of `state.md`) -/

/-- An observable scheduling event: the cleanup of registration `i`
running, or the body of registration `i` running. -/
inductive Ev where
  | cleanup (i : Nat)
  | body (i : Nat)
deriving DecidableEq, Repr

/-- The registration index an event belongs to. -/
def Ev.idx : Ev → Nat
  | .cleanup i => i
  | .body i => i

/-- What one effect registration supplies at one activation: its watch
values (`none` = no watch-list) and whether its body returns a cleanup
thunk this time. -/
structure Activation (α : Type) where
  deps : Option (List α)
  returnsCleanup : Bool

/-- The stored state of one effect registration: the watch values
recorded at the last activation, and whether an outstanding cleanup
thunk exists (the most recent body invocation returned one). -/
structure RegState (α : Type) where
  prevDeps : Option (List α)
  hasCleanup : Bool
deriving Repr

/-- Modelled from the spec: processing one registration during an
effect-evaluation pass (spec §4.2): if its watch-list triggers, the
previous invocation's cleanup (if any) runs first, then the body, and
the new cleanup handle is stored; either way the new watch values are
recorded. Returns the new state and the emitted events. -/
def runReg {α : Type} (eq : α → α → Bool) (i : Nat)
    (r : Activation α) (st : RegState α) : RegState α × List Ev :=
  if depsChanged eq r.deps st.prevDeps then
    (⟨r.deps, r.returnsCleanup⟩,
      (if st.hasCleanup then [Ev.cleanup i] else []) ++ [Ev.body i])
  else
    (⟨r.deps, st.hasCleanup⟩, [])

/-- Modelled from the spec: one effect-evaluation pass over the
registrations in ascending registration order, starting at index `i`
(spec §4.2, §4.3). -/
def effectPass {α : Type} (eq : α → α → Bool) (i : Nat) :
    List (Activation α) → List (RegState α) → List (RegState α) × List Ev
  | [], _ => ([], [])
  | _ :: _, [] => ([], [])
  | r :: rs, st :: ss =>
      let p := runReg eq i r st
      let q := effectPass eq (i + 1) rs ss
      (p.1 :: q.1, p.2 ++ q.2)

/-- Modelled from the spec: instance teardown (spec §3, §4.2) — every
registration's outstanding cleanup (if any) is invoked once, in
ascending registration order, starting at index `i`. -/
def teardownPass {α : Type} : Nat → List (RegState α) → List Ev
  | _, [] => []
  | i, st :: ss =>
      (if st.hasCleanup then [Ev.cleanup i] else []) ++ teardownPass (i + 1) ss

/-! ## Loop ceiling (spec §4.3, §7; src/state.md Error 5) -/

/-- Modelled from the spec: the error taxonomy entries the claims need
(spec §7); the source (`state.md`) shows only the framework's error
messages these model. -/
inductive SchedError where
  | RenderLoopExceeded
  | RegistrationOrderViolation
deriving DecidableEq, Repr

/-- The default re-activation ceiling within one externally-triggered
task (spec §7: "default ceiling: 25"). -/
def defaultCeiling : Nat := 25

/-- Modelled from the spec: the re-activation loop of one
externally-triggered task (spec §4.3). After each re-activation the
instance's effect runs; if it issues a mutation, a new batch opens and
another re-activation follows. `budget` is the number of re-activations
the ceiling still allows; when the instance exceeds it the scheduler
raises `RenderLoopExceeded` instead of looping forever. -/
def runReactivations {α : Type} (effect : α → Option (Mutation α)) :
    Nat → α → Except SchedError α
  | 0, _ => .error .RenderLoopExceeded
  | budget + 1, v =>
      match effect v with
      | none => .ok v
      | some m => runReactivations effect budget (applyMutation v m)

/-- The effect of `state.md`'s Error 5, Problem 1: no dependency array,
body unconditionally calls `setCount(count + 1)`. -/
def loopingEffect (count : Nat) : Option (Mutation Nat) :=
  some (.lit (count + 1))

/-! ## Registration-order validation (spec §4.1, §7; src/state.md
`BadComponent`) -/

/-- The kind of one `register*` call, in call order. -/
inductive RegKind where
  | cell
  | effect
deriving DecidableEq, Repr

/-- Modelled from the spec: validating an activation's registration
signature (the number and order of `registerCell`/`registerEffect`
calls) against the one recorded on the instance's first activation; a
mismatch is the fatal `RegistrationOrderViolation` and the activation
aborts (spec §7). -/
def checkActivation (recorded : Option (List RegKind)) (sig : List RegKind) :
    Except SchedError (List RegKind) :=
  match recorded with
  | none => .ok sig
  | some prev => if sig = prev then .ok sig else .error .RegistrationOrderViolation

/-- The registration signature of `state.md`'s `BadComponent` on an
activation: two `useState` calls when `shouldShowCounter` is true, one
when it is false. -/
def badComponentSig (shouldShowCounter : Bool) : List RegKind :=
  if shouldShowCounter then [.cell, .cell] else [.cell]

/-! ## ActionReducer (spec §4.4) -/

/-- Modelled from the spec: `dispatch(action)` of a reducer-backed cell
is sugar over §4.1 — it queues the mutation
`mutate(prev => reducerFn(prev, action))` (spec §4.4). -/
def dispatchMutation {σ A : Type} (reducerFn : σ → A → σ) (action : A) :
    Mutation σ :=
  .upd (fun prev => reducerFn prev action)

/-- An idle scheduler over Nat-valued cells, before any task. -/
def schedInit : Sched Nat :=
  ⟨fun _ => 0, [], .Idle, 0, 0⟩

/-- A task of three `mutate` calls: two to cell 0, one to cell 1. -/
def demoCalls : List (Nat × Mutation Nat) :=
  [(0, .lit 1), (0, .upd (· + 1)), (1, .lit 3)]

/-- Occurrence count of one event in a trace. -/
def countEv (l : List Ev) (e : Ev) : Nat :=
  (l.filter (fun x => decide (x = e))).length

/-- Registration 0 of the concrete cleanup scenario: watch-list whose
single watched value is now 1, body returns a cleanup thunk. -/
def sampleReg : Activation Nat :=
  ⟨some [1], true⟩

/-- Stored state of registration 0 of the concrete cleanup scenario: the
previous activation recorded watch value 0 and its body returned a
cleanup thunk. -/
def sampleSt : RegState Nat :=
  ⟨some [0], true⟩

/-- The two registrations of the concrete cleanup scenario at the
current activation: `sampleReg`, then an empty-watch-list effect. -/
def sampleRegs : List (Activation Nat) :=
  [sampleReg, ⟨some [], false⟩]

/-- The stored states of the concrete cleanup scenario: `sampleSt`, then
the empty-watch-list registration with no outstanding cleanup. -/
def sampleSts : List (RegState Nat) :=
  [sampleSt, ⟨some [], false⟩]

/-! ## Theorems -/

/-- C1: starting from a cell value of 0, the three literal mutations of
`Counter.handleClick` (each computed from the `count` captured before
the batch) flush to a final value of 1, while the three functional
updaters of `incrementThree` flush to 3, each updater observing the most
recently queued value within the batch. -/
theorem stale_value_vs_functional_update :
    applyBatch 0 (handleClickLiteral 0) = 1 ∧ applyBatch 0 incrementThree = 3 :=
  ⟨rfl, rfl⟩

/-- C3: `dispatch(action)` on a reducer-backed cell queues exactly the
mutation `mutate(prev => reducerFn(prev, action))`, so on the same prior
value the two produce the same resulting cell value; flushing a batch of
dispatches computes the reducer fold. -/
theorem dispatch_mutate_equivalence {σ A : Type} (reducerFn : σ → A → σ)
    (prior : σ) (action : A) (actions : List A) :
    applyMutation prior (dispatchMutation reducerFn action) =
      applyMutation prior (Mutation.upd fun prev => reducerFn prev action) ∧
    applyBatch prior (actions.map (dispatchMutation reducerFn)) =
      actions.foldl reducerFn prior := by
  refine ⟨rfl, ?_⟩
  induction actions generalizing prior with
  | nil => rfl
  | cons a as ih =>
      simpa [applyBatch, applyMutation, dispatchMutation] using ih (reducerFn prior a)

/-- C7 counterexample: the todo reducer is not pure — the `add` branch
stamps the new todo with `Date.now()`, so two evaluations of
`reducer(state, action)` at the same `(state, action)` but different
clock readings yield unequal states. -/
theorem reducer_impure_counterexample :
    ¬ reducer 0 [] (TodoAction.add "x") = reducer 1 [] (TodoAction.add "x") := by
  decide

/-- C7 amended: the todo reducer is deterministic once the clock reading
consumed by `Date.now()` is fixed as an input, and for every action that
does not take the `add` branch two evaluations at any two clock readings
yield equal states; only the `add` branch depends on the clock. -/
theorem reducer_pure_given_clock (s : List Todo) (a : TodoAction) (t₁ t₂ : Nat)
    (h : a.isAdd = false) : reducer t₁ s a = reducer t₂ s a := by
  cases a with
  | add p => simp [TodoAction.isAdd] at h
  | remove p => rfl
  | other => rfl

/-- Witness for `reducer_pure_given_clock` at a `remove` action. -/
theorem reducer_pure_given_clock_witness :
    (TodoAction.remove 5).isAdd = false ∧
    reducer 0 [⟨5, "a"⟩, ⟨6, "b"⟩] (TodoAction.remove 5) =
      reducer 7 [⟨5, "a"⟩, ⟨6, "b"⟩] (TodoAction.remove 5) :=
  ⟨by decide, reducer_pure_given_clock _ _ 0 7 (by decide)⟩

/-- `pressUser` preserves the lower bound 1 on `userId` along any fold. -/
theorem foldl_pressUser_ge (presses : List FetchButton) :
    ∀ id : Int, 1 ≤ id → 1 ≤ presses.foldl pressUser id := by
  induction presses with
  | nil => intro id h; simpa using h
  | cons p ps ih =>
      intro id h
      refine ih _ ?_
      cases p with
      | prev => exact le_max_left 1 _
      | next => simp only [pressUser]; omega

/-- C10: in `UserFetcher` the `userId` value is always at least 1: from
the initial value 1, every finite sequence of Prev
(`id => Math.max(1, id - 1)`) and Next (`id => id + 1`) presses leaves
`userId >= 1`. -/
theorem userId_always_ge_one (presses : List FetchButton) :
    1 ≤ userIdAfter presses :=
  foldl_pressUser_ge presses 1 le_rfl

theorem mutateCall_activations {α : Type} (s : Sched α) (c : Nat)
    (m : Mutation α) : (mutateCall s c m).activations = s.activations := by
  cases h : s.state <;> simp [mutateCall, h]

theorem mutateCall_effectPasses {α : Type} (s : Sched α) (c : Nat)
    (m : Mutation α) : (mutateCall s c m).effectPasses = s.effectPasses := by
  cases h : s.state <;> simp [mutateCall, h]

theorem mutateCall_state {α : Type} (s : Sched α) (c : Nat) (m : Mutation α)
    (h : s.state = .Idle ∨ s.state = .BatchOpen) :
    (mutateCall s c m).state = .BatchOpen := by
  rcases h with h | h <;> simp [mutateCall, h]

theorem mutateCalls_activations {α : Type} (calls : List (Nat × Mutation α)) :
    ∀ s : Sched α, (mutateCalls s calls).activations = s.activations := by
  induction calls with
  | nil => intro s; rfl
  | cons cm rest ih =>
      intro s
      simpa [mutateCalls, mutateCall_activations] using
        (ih (mutateCall s cm.1 cm.2)).trans (mutateCall_activations s cm.1 cm.2)

theorem mutateCalls_effectPasses {α : Type} (calls : List (Nat × Mutation α)) :
    ∀ s : Sched α, (mutateCalls s calls).effectPasses = s.effectPasses := by
  induction calls with
  | nil => intro s; rfl
  | cons cm rest ih =>
      intro s
      simpa [mutateCalls, mutateCall_effectPasses] using
        (ih (mutateCall s cm.1 cm.2)).trans (mutateCall_effectPasses s cm.1 cm.2)

theorem mutateCalls_state {α : Type} (calls : List (Nat × Mutation α)) :
    ∀ s : Sched α, calls ≠ [] → (s.state = .Idle ∨ s.state = .BatchOpen) →
      (mutateCalls s calls).state = .BatchOpen := by
  induction calls with
  | nil => intro s hne; exact absurd rfl hne
  | cons cm rest ih =>
      intro s _ hs
      cases rest with
      | nil => exact mutateCall_state s cm.1 cm.2 hs
      | cons cm' rest' =>
          exact ih (mutateCall s cm.1 cm.2) (by simp)
            (Or.inr (mutateCall_state s cm.1 cm.2 hs))

theorem runTask_eq_flush {α : Type} (s : Sched α)
    (calls : List (Nat × Mutation α))
    (h : (mutateCalls s calls).state = .BatchOpen) :
    runTask s calls = flush (mutateCalls s calls) := by
  unfold runTask
  rw [h]

/-- C2: N `mutate` calls issued within one synchronous task (to the same
cell or to distinct cells, N >= 1) produce exactly one flush: exactly
one re-activation and exactly one effect-evaluation pass afterward,
never N. -/
theorem batching_single_flush {α : Type} (s : Sched α)
    (calls : List (Nat × Mutation α)) (hidle : s.state = .Idle)
    (hne : calls ≠ []) :
    (runTask s calls).activations = s.activations + 1 ∧
    (runTask s calls).effectPasses = s.effectPasses + 1 := by
  have hstate := mutateCalls_state calls s hne (Or.inl hidle)
  rw [runTask_eq_flush s calls hstate]
  exact ⟨by simp [flush, mutateCalls_activations],
    by simp [flush, mutateCalls_effectPasses]⟩

/-- Witness for `batching_single_flush`: the three-call task on the idle
scheduler flushes exactly once. -/
theorem batching_single_flush_witness :
    (runTask schedInit demoCalls).activations = schedInit.activations + 1 ∧
    (runTask schedInit demoCalls).effectPasses = schedInit.effectPasses + 1 :=
  batching_single_flush schedInit demoCalls rfl (List.cons_ne_nil _ _)

/-- C4: across an activation, an effect registered with watch-list `[a]`
does not re-run when `a` is unchanged under the configured equality
rule, even if the instance's other cell changed (`b₁` to `b₂`); it does
re-run when `a` changed. -/
theorem watchlist_gating {α β : Type} (eq : α → α → Bool) (a₁ a₂ : α)
    (b₁ b₂ : β) (n : Nat) :
    (eq a₂ a₁ = true →
      (effectStep eq (watchFirst (a₁, b₁), n) (watchFirst (a₂, b₂))).2 = n) ∧
    (eq a₂ a₁ = false →
      (effectStep eq (watchFirst (a₁, b₁), n) (watchFirst (a₂, b₂))).2 = n + 1) := by
  constructor <;> intro h <;>
    simp [effectStep, depsChanged, watchFirst, areArraysEqual, h]

/-- Witness for `watchlist_gating`: with value equality on Nat, the
watched cell keeping value 1 while the other cell changes from 2 to 99
skips the re-run; the watched cell changing from 1 to 2 triggers it. -/
theorem watchlist_gating_witness :
    (((1 : Nat) == (1 : Nat)) = true ∧
      (effectStep (fun x y : Nat => x == y)
        (watchFirst (1, 2), 4) (watchFirst (1, 99))).2 = 4) ∧
    (((2 : Nat) == (1 : Nat)) = false ∧
      (effectStep (fun x y : Nat => x == y)
        (watchFirst (1, 2), 4) (watchFirst (2, 99))).2 = 5) :=
  ⟨⟨by decide, (watchlist_gating (fun x y : Nat => x == y) 1 1 2 99 4).1 (by decide)⟩,
    ⟨by decide, (watchlist_gating (fun x y : Nat => x == y) 1 2 2 99 4).2 (by decide)⟩⟩

theorem foldl_effectStep_empty {α : Type} (eq : α → α → Bool) (m k : Nat) :
    (List.replicate m (some ([] : List α))).foldl (effectStep eq)
      (some [], k) = (some [], k) := by
  induction m with
  | zero => rfl
  | succ m ih =>
      simpa [List.replicate_succ, effectStep, depsChanged, areArraysEqual]
        using ih

/-- C6: an effect registered with an explicitly empty watch-list runs
its body exactly once over the instance's lifetime — after the first
activation only — no matter how many activations occur. -/
theorem empty_watchlist_runs_once {α : Type} (eq : α → α → Bool) (n : Nat)
    (h : 1 ≤ n) :
    runCountAfter eq (List.replicate n (some ([] : List α))) = 1 := by
  obtain ⟨m, rfl⟩ : ∃ m, n = m + 1 := ⟨n - 1, by omega⟩
  have hstep : effectStep eq (none, 0) (some ([] : List α)) = (some [], 1) := by
    simp [effectStep, depsChanged]
  simp only [runCountAfter, List.replicate_succ, List.foldl_cons, hstep]
  rw [foldl_effectStep_empty]

/-- Witness for `empty_watchlist_runs_once` at three activations. -/
theorem empty_watchlist_runs_once_witness :
    1 ≤ 3 ∧
    runCountAfter (fun x y : Nat => x == y)
      (List.replicate 3 (some ([] : List Nat))) = 1 :=
  ⟨by decide, empty_watchlist_runs_once (fun x y : Nat => x == y) 3 (by decide)⟩

theorem countEv_append (l₁ l₂ : List Ev) (e : Ev) :
    countEv (l₁ ++ l₂) e = countEv l₁ e + countEv l₂ e := by
  simp [countEv, List.filter_append]

theorem countEv_eq_zero (e : Ev) :
    ∀ l : List Ev, (∀ x ∈ l, x ≠ e) → countEv l e = 0 := by
  intro l
  induction l with
  | nil => intro _; rfl
  | cons a l ih =>
      intro h
      have ha : ¬ a = e := h a (List.mem_cons_self a l)
      have hl := ih fun x hx => h x (List.mem_cons_of_mem a hx)
      simpa [countEv, List.filter_cons, ha] using hl

theorem teardownPass_ge {α : Type} :
    ∀ (sts : List (RegState α)) (i : Nat) (e : Ev),
      e ∈ teardownPass i sts → i ≤ e.idx := by
  intro sts
  induction sts with
  | nil => intro i e h; simp [teardownPass] at h
  | cons st ss ih =>
      intro i e h
      simp only [teardownPass] at h
      rcases List.mem_append.mp h with h1 | h2
      · by_cases hc : st.hasCleanup
        · simp [hc] at h1
          subst h1
          exact le_refl i
        · simp [hc] at h1
      · exact le_trans (by omega) (ih (i + 1) e h2)

theorem teardownPass_sorted {α : Type} :
    ∀ (sts : List (RegState α)) (i : Nat),
      List.Pairwise (fun e₁ e₂ : Ev => e₁.idx < e₂.idx) (teardownPass i sts) := by
  intro sts
  induction sts with
  | nil => intro i; simp [teardownPass]
  | cons st ss ih =>
      intro i
      simp only [teardownPass]
      refine List.pairwise_append.mpr ⟨?_, ih (i + 1), ?_⟩
      · by_cases hc : st.hasCleanup <;> simp [hc]
      · intro a ha b hb
        have hb' := teardownPass_ge ss (i + 1) b hb
        by_cases hc : st.hasCleanup
        · simp [hc] at ha
          subst ha
          show i < b.idx
          omega
        · simp [hc] at ha

theorem teardownPass_count {α : Type} :
    ∀ (sts : List (RegState α)) (i j : Nat) (st : RegState α),
      sts.get? j = some st →
      countEv (teardownPass i sts) (Ev.cleanup (i + j)) =
        if st.hasCleanup then 1 else 0 := by
  intro sts
  induction sts with
  | nil => intro i j st h; simp at h
  | cons st0 ss ih =>
      intro i j st h
      cases j with
      | zero =>
          rw [List.get?_cons_zero] at h
          injection h with h
          subst h
          have hz : countEv (teardownPass (i + 1) ss) (Ev.cleanup i) = 0 := by
            apply countEv_eq_zero
            intro x hx he
            have hge := teardownPass_ge ss (i + 1) x hx
            subst he
            simp only [Ev.idx] at hge
            omega
          simp only [Nat.add_zero, teardownPass, countEv_append, hz]
          by_cases hc : st0.hasCleanup <;> simp [hc, countEv, List.filter_cons]
      | succ j' =>
          have hih := ih (i + 1) j' st (by simpa using h)
          have hidx : i + 1 + j' = i + (j' + 1) := by omega
          rw [hidx] at hih
          have hhead : countEv (if st0.hasCleanup then [Ev.cleanup i] else [])
              (Ev.cleanup (i + (j' + 1))) = 0 := by
            by_cases hc : st0.hasCleanup <;>
              simp [hc, countEv, List.filter_cons]
          simp only [teardownPass, countEv_append, hhead, hih]
          omega

theorem runReg_hasCleanup {α : Type} (eq : α → α → Bool) (i : Nat)
    (r : Activation α) (st : RegState α)
    (h : depsChanged eq r.deps st.prevDeps = true) :
    ((runReg eq i r st).1).hasCleanup = r.returnsCleanup := by
  simp [runReg, h]

theorem effectPass_trace {α : Type} (eq : α → α → Bool) :
    ∀ (regs : List (Activation α)) (sts : List (RegState α)) (i j : Nat)
      (r : Activation α) (st : RegState α),
      regs.get? j = some r → sts.get? j = some st →
      st.hasCleanup = true → depsChanged eq r.deps st.prevDeps = true →
      ∃ pre post, (effectPass eq i regs sts).2 =
        pre ++ Ev.cleanup (i + j) :: Ev.body (i + j) :: post := by
  intro regs
  induction regs with
  | nil => intro sts i j r st hr; simp at hr
  | cons r0 rs ih =>
      intro sts i j r st hr hs hc hd
      cases sts with
      | nil => simp at hs
      | cons st0 ss =>
          cases j with
          | zero =>
              rw [List.get?_cons_zero] at hr hs
              injection hr with hr
              injection hs with hs
              subst hr
              subst hs
              refine ⟨[], (effectPass eq (i + 1) rs ss).2, ?_⟩
              simp [effectPass, runReg, hd, hc]
          | succ j' =>
              obtain ⟨pre, post, hp⟩ :=
                ih ss (i + 1) j' r st (by simpa using hr) (by simpa using hs) hc hd
              refine ⟨(runReg eq i r0 st0).2 ++ pre, post, ?_⟩
              have hidx : i + 1 + j' = i + (j' + 1) := by omega
              rw [hidx] at hp
              simp [effectPass, hp]

/-- C5: if a registration's watch-list triggers a re-run in an
effect-evaluation pass while an outstanding cleanup exists (the previous
activation's body returned one), the pass's trace runs that cleanup
immediately before the registration's body, synchronously in the same
pass; a triggered run stores whether the new body returned a cleanup
thunk; and on teardown the outstanding cleanup of every registration
runs exactly once (none if the registration has no outstanding cleanup),
in ascending registration order. -/
theorem cleanup_before_rerun_and_teardown {α : Type} (eq : α → α → Bool)
    (regs : List (Activation α)) (sts : List (RegState α)) (i j : Nat)
    (r : Activation α) (st : RegState α) :
    (regs.get? j = some r → sts.get? j = some st → st.hasCleanup = true →
      depsChanged eq r.deps st.prevDeps = true →
      ∃ pre post, (effectPass eq i regs sts).2 =
        pre ++ Ev.cleanup (i + j) :: Ev.body (i + j) :: post) ∧
    (depsChanged eq r.deps st.prevDeps = true →
      ((runReg eq i r st).1).hasCleanup = r.returnsCleanup) ∧
    (sts.get? j = some st →
      countEv (teardownPass i sts) (Ev.cleanup (i + j)) =
        if st.hasCleanup then 1 else 0) ∧
    List.Pairwise (fun e₁ e₂ : Ev => e₁.idx < e₂.idx) (teardownPass i sts) :=
  ⟨effectPass_trace eq regs sts i j r st,
    runReg_hasCleanup eq i r st,
    teardownPass_count sts i j st,
    teardownPass_sorted sts i⟩

/-- Witness for `cleanup_before_rerun_and_teardown` on the concrete
two-registration scenario: registration 0's watched value moved from 0
to 1, so its outstanding cleanup runs right before its body; teardown
runs exactly that cleanup, in order. -/
theorem cleanup_before_rerun_and_teardown_witness :
    (∃ pre post,
      (effectPass (fun x y : Nat => x == y) 0 sampleRegs sampleSts).2 =
        pre ++ Ev.cleanup 0 :: Ev.body 0 :: post) ∧
    ((runReg (fun x y : Nat => x == y) 0 sampleReg sampleSt).1).hasCleanup =
      sampleReg.returnsCleanup ∧
    countEv (teardownPass 0 sampleSts) (Ev.cleanup 0) = 1 ∧
    List.Pairwise (fun e₁ e₂ : Ev => e₁.idx < e₂.idx)
      (teardownPass 0 sampleSts) := by
  obtain ⟨h1, h2, h3, h4⟩ :=
    cleanup_before_rerun_and_teardown (fun x y : Nat => x == y)
      sampleRegs sampleSts 0 0 sampleReg sampleSt
  exact ⟨h1 rfl rfl rfl (by decide), h2 (by decide), h3 rfl, h4⟩

theorem loopingEffect_exceeds :
    ∀ budget count : Nat,
      runReactivations loopingEffect budget count =
        .error .RenderLoopExceeded := by
  intro budget
  induction budget with
  | zero => intro count; rfl
  | succ b ih =>
      intro count
      simpa [runReactivations, loopingEffect, applyMutation] using ih (count + 1)

/-- C8: an effect with no watch-list that unconditionally mutates a cell
exhausts any re-activation budget — in particular the default ceiling of
25 — so the scheduler raises `RenderLoopExceeded` and aborts the task
instead of re-activating indefinitely. -/
theorem render_loop_exceeded (budget count : Nat) :
    runReactivations loopingEffect budget count =
      .error .RenderLoopExceeded ∧
    runReactivations loopingEffect defaultCeiling count =
      .error .RenderLoopExceeded :=
  ⟨loopingEffect_exceeds budget count,
    loopingEffect_exceeds defaultCeiling count⟩

/-- C9: a first activation records its registration signature; a second
activation of the same instance whose `registerCell`/`registerEffect`
calls differ in number or order raises the fatal
`RegistrationOrderViolation` and aborts, rather than misattributing
stored values to the wrong slots. -/
theorem registration_order_violation (sig₁ sig₂ : List RegKind)
    (h : sig₂ ≠ sig₁) :
    checkActivation none sig₁ = .ok sig₁ ∧
    checkActivation (some sig₁) sig₂ = .error .RegistrationOrderViolation :=
  ⟨rfl, by simp [checkActivation, h]⟩

/-- Witness for `registration_order_violation`: `state.md`'s
`BadComponent`, whose second activation skips one `useState` call made
by the first. -/
theorem registration_order_violation_witness :
    badComponentSig false ≠ badComponentSig true ∧
    checkActivation none (badComponentSig true) = .ok (badComponentSig true) ∧
    checkActivation (some (badComponentSig true)) (badComponentSig false) =
      .error .RegistrationOrderViolation := by
  have h : badComponentSig false ≠ badComponentSig true := by decide
  exact ⟨h, registration_order_violation _ _ h⟩

end ReactState
